import Mathlib

/-!
# Verification of `prime_calculator.py`

Shallow embedding of the prime enumerator:

```python
from sympy import isprime

def calculate_primes(n):
    primes = []
    num = 2
    while len(primes) < n:
        if isprime(num):
            primes.append(num)
        num += 1
    return primes

if __name__ == '__main__':
    print(calculate_primes(10))
```

The input `n` is a Python integer, embedded as `Int`; the collected
primes are naturals.  The `while` loop is embedded twice: once as a
total function `loop` (well-founded recursion, the measure combining
the number of primes still missing with the distance to the next
prime), and once as a step-indexed function `loopFuel` that spends one
unit of fuel per evaluation of the loop guard, so that termination and
non-termination of the source loop are expressible.
-/

/-- `sympy.isprime`: a correct primality predicate on the naturals. -/
def isprime (k : Nat) : Bool := decide (Nat.Prime k)

/-- The smallest prime `≥ m`; used only in the termination measure of
the loop. -/
def nextPrime (m : Nat) : Nat := Nat.find (Nat.exists_infinite_primes m)

theorem nextPrime_prime (m : Nat) : Nat.Prime (nextPrime m) :=
  (Nat.find_spec (Nat.exists_infinite_primes m)).2

theorem le_nextPrime (m : Nat) : m ≤ nextPrime m :=
  (Nat.find_spec (Nat.exists_infinite_primes m)).1

theorem lt_nextPrime_of_not_prime {m : Nat} (h : ¬ Nat.Prime m) :
    m < nextPrime m := by
  rcases Nat.lt_or_ge m (nextPrime m) with h' | h'
  · exact h'
  · exact absurd (Nat.le_antisymm h' (le_nextPrime m) ▸ nextPrime_prime m) h

theorem nextPrime_succ_of_not_prime {m : Nat} (h : ¬ Nat.Prime m) :
    nextPrime (m + 1) = nextPrime m := by
  apply Nat.le_antisymm
  · exact Nat.find_min' _ ⟨lt_nextPrime_of_not_prime h, nextPrime_prime m⟩
  · exact Nat.find_min' _
      ⟨Nat.le_of_succ_le (Nat.find_spec (Nat.exists_infinite_primes (m + 1))).1,
       nextPrime_prime (m + 1)⟩

/-- The `while len(primes) < n` loop of `calculate_primes`, with state
`(primes, num)`. -/
def loop (n : Int) (primes : List Nat) (num : Nat) : List Nat :=
  if (primes.length : Int) < n then
    if isprime num then loop n (primes ++ [num]) (num + 1)
    else loop n primes (num + 1)
  else primes
termination_by (n.toNat - primes.length, nextPrime num - num)
decreasing_by
  · apply Prod.Lex.left
    simp only [List.length_append, List.length_cons, List.length_nil]
    omega
  · rename_i hlt hnp
    have h1 : ¬ Nat.Prime num := by
      simpa [isprime] using hnp
    have h2 := nextPrime_succ_of_not_prime h1
    have h3 := lt_nextPrime_of_not_prime h1
    apply Prod.Lex.right
    omega

/-- `calculate_primes` from `prime_calculator.py`. -/
def calculate_primes (n : Int) : List Nat := loop n [] 2

/-- Step-indexed version of the same loop: one unit of fuel is spent
per evaluation of the loop guard, and `none` means the fuel ran out
before the loop finished.  The source loop terminates on an input
exactly when some finite amount of fuel suffices. -/
def loopFuel : Nat → Int → List Nat → Nat → Option (List Nat)
  | 0, _, _, _ => none
  | fuel + 1, n, primes, num =>
    if (primes.length : Int) < n then
      if isprime num then loopFuel fuel n (primes ++ [num]) (num + 1)
      else loopFuel fuel n primes (num + 1)
    else some primes

/-- The first `k` primes in ascending order, stated from the spec:
`firstPrimes k = [2, 3, 5, ...]`, the `k` smallest primes. -/
noncomputable def firstPrimes (k : Nat) : List Nat :=
  (List.range k).map (Nat.nth Nat.Prime)

/-- The glossary's definition of a prime number: an integer greater
than 1 with no positive divisors other than 1 and itself. -/
def glossaryPrime (k : Nat) : Prop :=
  1 < k ∧ ∀ d : Nat, 0 < d → d ∣ k → d = 1 ∨ d = k

/-- The spec's sqrt-bounded primality rule for a candidate `k`:
no integer `d` with `2 ≤ d ≤ sqrt k` evenly divides `k`. -/
def sqrtRule (k : Nat) : Prop :=
  ∀ d : Nat, 2 ≤ d → d ≤ Nat.sqrt k → ¬ d ∣ k

/-- Python's `print` rendering of a list of integers:
`[a, b, c]` with elements separated by a comma and a space. -/
def pyListRepr (l : List Nat) : String :=
  "[" ++ String.intercalate ", " (l.map (fun a => toString a)) ++ "]"

/-- The `if __name__ == '__main__'` block: the script prints
`calculate_primes(10)` in Python's list notation and, completing
without an uncaught exception, exits with status 0.  Modelled as the
pair (standard-output line, exit code). -/
def mainRun : String × Nat := (pyListRepr (calculate_primes 10), 0)

/-! ## Helper lemmas -/

theorem isprime_iff (k : Nat) : isprime k = true ↔ Nat.Prime k := by
  simp [isprime]

/-- If the step-indexed loop finishes within its fuel, its result is the
result of the loop. -/
theorem loopFuel_sound :
    ∀ (fuel : Nat) (n : Int) (primes : List Nat) (num : Nat) (r : List Nat),
      loopFuel fuel n primes num = some r → loop n primes num = r := by
  intro fuel
  induction fuel with
  | zero => intro n primes num r h; simp [loopFuel] at h
  | succ f ih =>
    intro n primes num r h
    rw [loop.eq_def]
    simp only [loopFuel] at h
    by_cases hg : (primes.length : Int) < n
    · rw [if_pos hg] at h ⊢
      by_cases hp : isprime num = true
      · rw [if_pos hp] at h ⊢; exact ih _ _ _ _ h
      · rw [if_neg hp] at h ⊢; exact ih _ _ _ _ h
    · rw [if_neg hg] at h ⊢; exact Option.some.inj h

/-- Some finite amount of fuel always suffices: the source loop reaches
its exit condition from every state. -/
theorem loopFuel_complete (n : Int) :
    ∀ (primes : List Nat) (num : Nat),
      ∃ fuel, loopFuel fuel n primes num = some (loop n primes num) := by
  intro primes num
  induction primes, num using loop.induct n with
  | case1 primes num hg hp ih =>
    obtain ⟨f, hf⟩ := ih
    refine ⟨f + 1, ?_⟩
    rw [loop.eq_def, if_pos hg, if_pos hp]
    simpa only [loopFuel, if_pos hg, if_pos hp] using hf
  | case2 primes num hg hp ih =>
    obtain ⟨f, hf⟩ := ih
    refine ⟨f + 1, ?_⟩
    rw [loop.eq_def, if_pos hg, if_neg hp]
    simpa only [loopFuel, if_pos hg, if_neg hp] using hf
  | case3 primes num hg =>
    refine ⟨1, ?_⟩
    rw [loop.eq_def, if_neg hg]
    simp only [loopFuel, if_neg hg]

theorem firstPrimes_succ (k : Nat) :
    firstPrimes (k + 1) = firstPrimes k ++ [Nat.nth Nat.Prime k] := by
  simp [firstPrimes, List.range_succ]

/-- Loop invariant: if the primes collected so far are exactly the
primes below the current candidate, the loop fills the list up to the
first `n` primes. -/
theorem loop_firstPrimes (n : Int) :
    ∀ (primes : List Nat) (num : Nat),
      primes = firstPrimes (Nat.count Nat.Prime num) →
      ((Nat.count Nat.Prime num : Nat) : Int) ≤ n →
      loop n primes num = firstPrimes n.toNat := by
  intro primes num
  induction primes, num using loop.induct n with
  | case1 primes num hg hp ih =>
    intro hpr hle
    have hnum : Nat.Prime num := (isprime_iff num).1 hp
    have hcnt : Nat.count Nat.Prime (num + 1) = Nat.count Nat.Prime num + 1 := by
      rw [Nat.count_succ, if_pos hnum]
    have hlen : primes.length = Nat.count Nat.Prime num := by
      rw [hpr]; simp [firstPrimes]
    rw [loop.eq_def, if_pos hg, if_pos hp]
    apply ih
    · rw [hcnt, firstPrimes_succ, ← hpr, Nat.nth_count hnum]
    · rw [hcnt]
      rw [hlen] at hg
      omega
  | case2 primes num hg hp ih =>
    intro hpr hle
    have hnum : ¬ Nat.Prime num := fun h => hp ((isprime_iff num).2 h)
    have hcnt : Nat.count Nat.Prime (num + 1) = Nat.count Nat.Prime num := by
      rw [Nat.count_succ, if_neg hnum, Nat.add_zero]
    rw [loop.eq_def, if_pos hg, if_neg hp]
    apply ih
    · rw [hcnt, ← hpr]
    · rw [hcnt]; exact hle
  | case3 primes num hg =>
    intro hpr hle
    have hlen : primes.length = Nat.count Nat.Prime num := by
      rw [hpr]; simp [firstPrimes]
    have : n.toNat = Nat.count Nat.Prime num := by omega
    rw [loop.eq_def, if_neg hg, this, hpr]

/-- Refinement: for `n ≥ 0`, the code computes exactly the first
`n` primes by magnitude. -/
theorem calculate_primes_eq {n : Int} (h : 0 ≤ n) :
    calculate_primes n = firstPrimes n.toNat := by
  have h0 : Nat.count Nat.Prime 2 = 0 := by decide
  unfold calculate_primes
  apply loop_firstPrimes n [] 2
  · rw [h0]; simp [firstPrimes]
  · rw [h0]; exact_mod_cast h

theorem firstPrimes_length (k : Nat) : (firstPrimes k).length = k := by
  simp [firstPrimes]

theorem firstPrimes_sorted (k : Nat) : (firstPrimes k).Pairwise (· < ·) := by
  apply List.Pairwise.map
  · intro a b hab
    exact (Nat.nth_lt_nth Nat.infinite_setOf_prime).2 hab
  · exact List.pairwise_lt_range k

theorem firstPrimes_prime (k : Nat) : ∀ p ∈ firstPrimes k, Nat.Prime p := by
  intro p hp
  simp only [firstPrimes, List.mem_map, List.mem_range] at hp
  obtain ⟨i, _, rfl⟩ := hp
  exact Nat.prime_nth_prime i

theorem calculate_primes_one : calculate_primes 1 = [2] := by
  unfold calculate_primes
  exact loopFuel_sound 2 1 [] 2 [2] (by decide)

theorem calculate_primes_five : calculate_primes 5 = [2, 3, 5, 7, 11] := by
  unfold calculate_primes
  exact loopFuel_sound 12 5 [] 2 [2, 3, 5, 7, 11] (by decide)

theorem calculate_primes_ten :
    calculate_primes 10 = [2, 3, 5, 7, 11, 13, 17, 19, 23, 29] := by
  unfold calculate_primes
  exact loopFuel_sound 30 10 [] 2 [2, 3, 5, 7, 11, 13, 17, 19, 23, 29] (by decide)

theorem glossaryPrime_iff (k : Nat) : glossaryPrime k ↔ Nat.Prime k := by
  unfold glossaryPrime
  rw [Nat.prime_def]
  constructor
  · rintro ⟨h1, h2⟩
    refine ⟨h1, fun m hm => ?_⟩
    rcases Nat.eq_zero_or_pos m with rfl | hpos
    · exact absurd (Nat.eq_zero_of_zero_dvd hm) (by omega)
    · exact h2 m hpos hm
  · rintro ⟨h1, h2⟩
    exact ⟨h1, fun d _ hd => h2 d hd⟩

theorem sqrtRule_iff {k : Nat} (h : 2 ≤ k) : sqrtRule k ↔ Nat.Prime k := by
  rw [Nat.prime_def_le_sqrt]
  unfold sqrtRule
  constructor
  · intro hs; exact ⟨h, hs⟩
  · rintro ⟨-, hs⟩; exact hs

/-! ## Claims -/

/-- C1: for every integer `n ≥ 0`, `calculate_primes n` returns a
sequence of exactly `n` elements that is strictly increasing, in which
every element is prime, and which skips no prime: it is exactly the
first `n` primes by magnitude, starting from 2. -/
theorem C1_first_n_primes (n : Int) (h : 0 ≤ n) :
    (calculate_primes n).length = n.toNat ∧
    (calculate_primes n).Pairwise (· < ·) ∧
    (∀ p ∈ calculate_primes n, Nat.Prime p) ∧
    calculate_primes n = firstPrimes n.toNat := by
  have he := calculate_primes_eq h
  refine ⟨?_, ?_, ?_, he⟩ <;> rw [he]
  · exact firstPrimes_length _
  · exact firstPrimes_sorted _
  · exact firstPrimes_prime _

theorem C1_first_n_primes_witness :
    (0 : Int) ≤ 3 ∧
    ((calculate_primes 3).length = (3 : Int).toNat ∧
     (calculate_primes 3).Pairwise (· < ·) ∧
     (∀ p ∈ calculate_primes 3, Nat.Prime p) ∧
     calculate_primes 3 = firstPrimes (3 : Int).toNat) :=
  ⟨by decide, C1_first_n_primes 3 (by decide)⟩

/-- C2: at the failing input `n = -1` the code raises nothing and
returns the empty list — the loop guard is already false at the first
test (one unit of fuel suffices), so no InvalidArgument-type error is
ever surfaced, contrary to the spec's mandate. -/
theorem C2_neg_one_no_error :
    calculate_primes (-1) = [] ∧ loopFuel 1 (-1) ([] : List Nat) 2 = some [] := by
  constructor
  · rw [calculate_primes, loop.eq_def]
    norm_num
  · decide

/-- C3 counterexample: at `n = -1` the source loop terminates — a
single evaluation of the loop guard already finishes it with result
`[]` — refuting the spec's assertion that the loop does not terminate
for negative `n`. -/
theorem C3_counterexample_neg_terminates :
    loopFuel 1 (-1) ([] : List Nat) 2 = some [] := by decide

/-- C3 amended: for every negative integer `n`, the source loop
terminates immediately: the very first guard test `len(primes) < n`
fails and the loop returns the empty list. -/
theorem C3_amended_stops_immediately (n : Int) (h : n < 0) :
    loopFuel 1 n ([] : List Nat) 2 = some [] ∧ loop n [] 2 = [] := by
  have hg : ¬ ((([] : List Nat).length : Int) < n) := by
    simp only [List.length_nil, Nat.cast_zero]
    omega
  constructor
  · simp only [loopFuel, if_neg hg]
  · rw [loop.eq_def, if_neg hg]

theorem C3_amended_stops_immediately_witness :
    (-2 : Int) < 0 ∧
    (loopFuel 1 (-2) ([] : List Nat) 2 = some [] ∧ loop (-2) [] 2 = []) :=
  ⟨by decide, C3_amended_stops_immediately (-2) (by decide)⟩

/-- C4: for every integer `n ≥ 0` the computation terminates: some
finite fuel makes the step-indexed loop return a result, that result
is `calculate_primes n`, and its length equals `n` (the loop reaches a
state where the result length equals `n`). -/
theorem C4_loop_terminates (n : Int) (h : 0 ≤ n) :
    ∃ fuel, loopFuel fuel n [] 2 = some (calculate_primes n) ∧
      (calculate_primes n).length = n.toNat := by
  obtain ⟨fuel, hf⟩ := loopFuel_complete n [] 2
  refine ⟨fuel, hf, ?_⟩
  rw [calculate_primes_eq h, firstPrimes_length]

theorem C4_loop_terminates_witness :
    (0 : Int) ≤ 2 ∧
    ∃ fuel, loopFuel fuel 2 [] 2 = some (calculate_primes 2) ∧
      (calculate_primes 2).length = (2 : Int).toNat :=
  ⟨by decide, C4_loop_terminates 2 (by decide)⟩

/-- C5: `calculate_primes 0` returns the empty sequence. -/
theorem C5_zero_empty : calculate_primes 0 = [] := by
  unfold calculate_primes
  exact loopFuel_sound 1 0 [] 2 [] (by decide)

/-- C6: concrete values: `calculate_primes 1 = [2]`,
`calculate_primes 5 = [2, 3, 5, 7, 11]`, and
`calculate_primes 10 = [2, 3, 5, 7, 11, 13, 17, 19, 23, 29]`. -/
theorem C6_concrete_values :
    calculate_primes 1 = [2] ∧
    calculate_primes 5 = [2, 3, 5, 7, 11] ∧
    calculate_primes 10 = [2, 3, 5, 7, 11, 13, 17, 19, 23, 29] :=
  ⟨calculate_primes_one, calculate_primes_five, calculate_primes_ten⟩

/-- C7: for every `k ≥ 2`, the spec's sqrt-bounded trial-division rule
holds of `k` exactly when `k` is prime per the glossary definition, and
the code's primality test `isprime` agrees with the sqrt rule. -/
theorem C7_primality_rules_agree (k : Nat) (h : 2 ≤ k) :
    (sqrtRule k ↔ glossaryPrime k) ∧ (isprime k = true ↔ sqrtRule k) :=
  ⟨(sqrtRule_iff h).trans (glossaryPrime_iff k).symm,
   (isprime_iff k).trans (sqrtRule_iff h).symm⟩

theorem C7_primality_rules_agree_witness :
    2 ≤ 5 ∧ ((sqrtRule 5 ↔ glossaryPrime 5) ∧ (isprime 5 = true ↔ sqrtRule 5)) :=
  ⟨by decide, C7_primality_rules_agree 5 (by decide)⟩

/-- C8: determinism / idempotence: the embedding of
`calculate_primes` is a pure function of its argument — the source
reads no state other than `n` — so two invocations with the same `n`
return identical sequences. -/
theorem C8_deterministic (n : Int) : calculate_primes n = calculate_primes n := rfl

/-- C9: run with no arguments, the program prints the first 10 primes
to standard output as the sequence literal
`[2, 3, 5, 7, 11, 13, 17, 19, 23, 29]` and exits with code 0. -/
theorem C9_main_prints_first_ten :
    mainRun = ("[2, 3, 5, 7, 11, 13, 17, 19, 23, 29]", 0) := by
  unfold mainRun
  rw [calculate_primes_ten]
  decide

/-- C10: for every integer `n ≤ 0`, `calculate_primes n` terminates
immediately with the empty sequence and raises no error: the loop
guard `len(primes) < n` is false from the start. -/
theorem C10_nonpositive_returns_empty (n : Int) (h : n ≤ 0) :
    calculate_primes n = [] ∧ loopFuel 1 n ([] : List Nat) 2 = some [] := by
  have hg : ¬ ((([] : List Nat).length : Int) < n) := by
    simp only [List.length_nil, Nat.cast_zero]
    omega
  constructor
  · rw [calculate_primes, loop.eq_def, if_neg hg]
  · simp only [loopFuel, if_neg hg]

theorem C10_nonpositive_returns_empty_witness :
    (-5 : Int) ≤ 0 ∧
    (calculate_primes (-5) = [] ∧ loopFuel 1 (-5) ([] : List Nat) 2 = some []) :=
  ⟨by decide, C10_nonpositive_returns_empty (-5) (by decide)⟩
